import Mathlib

/-!
Verification development for the SUMO-MCP core components:
the incremental section-segmentation engine of the backend streaming
endpoint (demo/backend/app.py, `generate` inside `chat_stream`), the
task-list store endpoints (`update_todos`, `update_single_todo`,
`clear_todos`) of the same file, and the tool-module registry
(`mount_module` / `_mount_single_module` in mcp_sumo/sumo_tools.py).

The Python code is shallowly embedded: strings are Lean `String`s
(operated on through their `List Char` data), Python's `str.find`,
slicing, `strip`, `startswith` and `in` are reimplemented below with
Python's semantics, and the stateful streaming loop becomes explicit
state passing over an `EngineState`.  Side effects on the shared
task-list store (`current_todos` plus WebSocket broadcast) and the
tool-registry refresh are recorded as explicit events interleaved, in
program order, with the SSE events the generator yields.
-/

namespace SumoMCP

/-! ## Python string primitives -/

/-- Boolean list-prefix test (used to mirror Python `str.startswith` and
substring search at a position). -/
def isPre : List Char → List Char → Bool
  | [], _ => true
  | _ :: _, [] => false
  | a :: as, b :: bs => a == b && isPre as bs

/-- Scan indices `i, i+1, ...` (for `fuel` steps) for the first position where
`sub` is a prefix of `l.drop i`. -/
def findFromGo (l sub : List Char) : Nat → Nat → Option Nat
  | _, 0 => none
  | i, fuel + 1 => if isPre sub (l.drop i) then some i else findFromGo l sub (i + 1) fuel

/-- Python's clamping of an integer slice/search bound into `[0, n]`:
nonnegative indices clamp to `n`, negative ones count from the end. -/
def pyIndex (n : Nat) (i : Int) : Nat :=
  if 0 ≤ i then min i.toNat n else n - min (-i).toNat n

/-- Python `s.find(sub, start)`: least index `≥ start` where `sub` occurs,
`none` for Python's `-1`. -/
def pyFindFrom (s sub : String) (start : Int) : Option Nat :=
  findFromGo s.data sub.data (pyIndex s.data.length start)
    (s.data.length + 1 - pyIndex s.data.length start)

/-- Python `sub in s`. -/
def pyIn (sub s : String) : Bool := (pyFindFrom s sub 0).isSome

/-- Python slice `l[a:b]` (with Python's clamping of both bounds). -/
def pySlice (l : List Char) (a b : Int) : List Char :=
  (l.take (pyIndex l.length b)).drop (pyIndex l.length a)

/-- Python `str.strip()` (whitespace on both ends; `Char.isWhitespace`
covers the ASCII whitespace the stream contains). -/
def pyStrip (l : List Char) : List Char :=
  ((l.dropWhile Char.isWhitespace).reverse.dropWhile Char.isWhitespace).reverse

/-- Python `s.startswith(p)`. -/
def pyStartsWith (s p : String) : Bool := isPre p.data s.data

/-! ## Data model: task items and stream events -/

/-- A task item as the JSON dictionaries the store holds: each of the
keys `id`, `content`, `status` may be present or absent. -/
structure RawTodo where
  id : Option String
  content : Option String
  status : Option String
deriving DecidableEq, Repr

/-- The task-list store contents (`current_todos`). -/
abbrev Store := List RawTodo

/-- One discrete occurrence in the generator's output, in program order.
The first five constructors are the SSE events the generator yields
(`section_start`, `content`, `section_complete`, `complete`, `error`);
`todoReplace` records the store mutation `current_todos = todos` together
with its `broadcast_todos()` push, and `refreshTools` records the
`qwen_client.refresh_tools()` registry refresh, both at the program point
where the source performs them. -/
inductive SSEvent where
  | sectionStart (sec : String)
  | content (sec : String) (body : String)
  | sectionComplete (sec : String)
  | complete
  | error (message : String)
  | todoReplace (todos : List RawTodo)
  | refreshTools
deriving DecidableEq, Repr

/-! ## Segmentation engine -/

/-- The marker list of `generate` (`section_markers`). -/
def sectionMarkers : List String := ["[THINK]", "[TOOL_CALL]", "[TOOL_RESPONSE]", "[ANSWER]"]

/-- `section_counters.get(k, 0)` on the assoc-list model of the dict. -/
def countersGet (cs : List (String × Nat)) (k : String) : Nat :=
  match cs.find? (fun p => p.1 == k) with
  | some p => p.2
  | none => 0

/-- `section_counters[k] = v` on the assoc-list model of the dict. -/
def countersSet (cs : List (String × Nat)) (k : String) (v : Nat) : List (String × Nat) :=
  match cs with
  | [] => [(k, v)]
  | p :: rest => if p.1 == k then (k, v) :: rest else p :: countersSet rest k v

/-- The loop state of `generate`: `current_section`, `last_marker_pos`
(`-1` before any marker), `last_sent_content`, `section_counters`. -/
structure EngineState where
  currentSection : Option String
  lastMarkerPos : Int
  lastSentContent : String
  sectionCounters : List (String × Nat)
deriving DecidableEq, Repr

/-- The state at the top of `generate`. -/
def initState : EngineState := ⟨none, -1, "", []⟩

/-- The `for marker in section_markers` scan for the nearest next marker:
keeps the lowest found offset, ties broken by list order (strict `<`). -/
def findNextMarker (text : String) (start : Int) :
    List String → Option String × Nat → Option String × Nat
  | [], acc => acc
  | m :: ms, acc =>
    findNextMarker text start ms
      (match pyFindFrom text m start with
       | some p => if p < acc.2 then (some m, p) else acc
       | none => acc)

/-- The `elif current_section is None` scan: first marker in declaration
order that occurs anywhere in the buffer (`break` at the first hit). -/
def scanFirstMarker (text : String) : List String → Option (String × Nat)
  | [] => none
  | m :: ms =>
    match pyFindFrom text m 0 with
    | some p => some (m, p)
    | none => scanFirstMarker text ms

/-- The `end_pos` scan of the content-update step: minimum over all
markers of their first occurrence at or after `startPos`. -/
def minEndPos (text : String) (startPos : Nat) : List String → Nat → Nat
  | [], acc => acc
  | m :: ms, acc =>
    minEndPos text startPos ms
      (match pyFindFrom text m (startPos : Int) with
       | some p => min acc p
       | none => acc)

/-- `marker.lower().replace('[', '').replace(']', '').replace('_', '-')`. -/
def baseSectionName (m : String) : String :=
  String.mk (((m.data.map Char.toLower).filter
    (fun c => !(c == '[' || c == ']'))).map (fun c => if c == '_' then '-' else c))

/-- The two explicit renames after `base_section_name` is computed. -/
def fixBaseName (b : String) : String :=
  if b = "tool-call" then "tool-calls"
  else if b = "tool-response" then "tool-responses"
  else b

/-- `f"{base}-{counter}"` for repeats, the bare base name the first time. -/
def displayNameOf (b : String) (c : Nat) : String :=
  if c > 1 then b ++ "-" ++ toString c else b

/-- Abstraction of the TodoWrite payload extraction
(`re.search(r'TodoWrite.*?...', content, re.DOTALL)` followed by
`json.loads` and `.get('todos', [])`): `some ts` models a successful
structural match parsed to the todos array `ts`, `none` models no match
or any exception raised while matching/parsing (swallowed by the source's
`except ... pass`).  All engine theorems hold for every such function. -/
abbrev ParseFn := String → Option (List RawTodo)

/-- The TodoWrite detection block of `generate`: inside
`if "TodoWrite" in section_content`, a successful parse with a non-empty
`todos` array replaces the store and broadcasts. -/
def extractTodoCmd (parse : ParseFn) (store : Store) (sc : String) : List SSEvent × Store :=
  if pyIn "TodoWrite" sc then
    match parse sc with
    | some todos => if todos.isEmpty then ([], store) else ([.todoReplace todos], todos)
    | none => ([], store)
  else ([], store)

/-- The mount_module detection block of `generate`: on the keyword test
it calls `qwen_client.refresh_tools()` (failure is logged only). -/
def extractMountCmd (sc : String) : List SSEvent :=
  if pyIn "sumo_server-mount_module" sc || pyIn "mount_module" sc then [.refreshTools] else []

/-- `current_section.startswith('tool-calls') or
current_section.startswith('tool-responses')`. -/
def isToolSection (cs : String) : Bool :=
  pyStartsWith cs "tool-calls" || pyStartsWith cs "tool-responses"

/-- Command extraction run when a section closes on a new-marker boundary:
TodoWrite check, then mount_module check, over
`previous_text[last_marker_pos:next_marker_pos]`. -/
def closeExtraction (parse : ParseFn) (store : Store) (cs : String) (sc : String) :
    List SSEvent × Store :=
  if isToolSection cs then
    let r := extractTodoCmd parse store sc
    (r.1 ++ extractMountCmd sc, r.2)
  else ([], store)

/-- The `elif current_section is None` branch of the loop body. -/
def elifBranch (st : EngineState) (store : Store) (text : String) :
    List SSEvent × EngineState × Store :=
  match st.currentSection with
  | some _ => ([], st, store)
  | none =>
    match scanFirstMarker text sectionMarkers with
    | none => ([], st, store)
    | some (m, pos) =>
      let base := fixBaseName (baseSectionName m)
      ([.sectionStart base], ⟨some base, (pos : Int), "", countersSet st.sectionCounters base 1⟩,
        store)

/-- The boundary-handling part of one loop iteration of `generate`
(`if next_marker and next_marker_pos > last_marker_pos: ... elif
current_section is None: ...`): closes the current section (running
command extraction first), opens the newly found one with its numbered
display name. -/
def advanceBranch (parse : ParseFn) (st : EngineState) (store : Store) (text : String) :
    List SSEvent × EngineState × Store :=
  let nm := findNextMarker text (st.lastMarkerPos + 1) sectionMarkers (none, text.data.length)
  match nm.1 with
  | some m =>
    if st.lastMarkerPos < (nm.2 : Int) then
      let closed :=
        match st.currentSection with
        | some cs =>
          let e := closeExtraction parse store cs
            (String.mk (pySlice text.data st.lastMarkerPos (nm.2 : Int)))
          (e.1 ++ [SSEvent.sectionComplete cs], e.2)
        | none => ([], store)
      let base := fixBaseName (baseSectionName m)
      let counter := countersGet st.sectionCounters base + 1
      let name := displayNameOf base counter
      (closed.1 ++ [SSEvent.sectionStart name],
        ⟨some name, (nm.2 : Int), "", countersSet st.sectionCounters base counter⟩,
        closed.2)
    else elifBranch st store text
  | none => elifBranch st store text

/-- The content span of the currently open section in the current buffer,
exactly as the content-update step computes it: find which marker the
open section starts with, then `previous_text[start_pos:end_pos].strip()`
where `start_pos` is the end of that marker and `end_pos` the next marker
occurrence (or end of buffer).  `none` when no section is open, the
marker offset is negative, or no marker starts at the recorded offset. -/
def sectionContentAt (st : EngineState) (text : String) : Option String :=
  match st.currentSection with
  | none => none
  | some _ =>
    if st.lastMarkerPos < 0 then none
    else
      match sectionMarkers.find?
          (fun m => pyStartsWith (String.mk (text.data.drop st.lastMarkerPos.toNat)) m) with
      | none => none
      | some m =>
        let startPos := st.lastMarkerPos.toNat + m.data.length
        let endPos := minEndPos text startPos sectionMarkers text.data.length
        some (String.mk (pyStrip (pySlice text.data (startPos : Int) (endPos : Int))))

/-- The content-update step of one loop iteration (`if current_section and
last_marker_pos >= 0: ...`): emit the trimmed span when non-empty and
different from `last_sent_content`. -/
def contentStep (st : EngineState) (text : String) : List SSEvent × EngineState :=
  match st.currentSection with
  | none => ([], st)
  | some cs =>
    match sectionContentAt st text with
    | none => ([], st)
    | some c =>
      if c != "" && c != st.lastSentContent then
        ([SSEvent.content cs c], { st with lastSentContent := c })
      else ([], st)

/-- One full iteration of the streaming loop on the cumulative snapshot
`text`: boundary handling, then the content update. -/
def advance (parse : ParseFn) (st : EngineState) (store : Store) (text : String) :
    List SSEvent × EngineState × Store :=
  let b := advanceBranch parse st store text
  let c := contentStep b.2.1 text
  (b.1 ++ c.1, c.2, b.2.2)

/-- The code after the loop: close the last open section (running only the
TodoWrite detection, over `previous_text[last_marker_pos:]`), then emit
the terminal `complete` event. -/
def finalizeGen (parse : ParseFn) (st : EngineState) (store : Store) (text : String) :
    List SSEvent × Store :=
  match st.currentSection with
  | none => ([SSEvent.complete], store)
  | some cs =>
    let e :=
      if isToolSection cs then
        extractTodoCmd parse store
          (String.mk (pySlice text.data st.lastMarkerPos (text.data.length : Int)))
      else ([], store)
    (e.1 ++ [SSEvent.sectionComplete cs, SSEvent.complete], e.2)

/-- The loop over successive cumulative snapshots, then finalization with
the last snapshot (`previous_text` when the model stream ends). -/
def genLoop (parse : ParseFn) (st : EngineState) (store : Store) (lastText : String) :
    List String → List SSEvent × EngineState × Store
  | [] =>
    let f := finalizeGen parse st store lastText
    (f.1, st, f.2)
  | t :: ts =>
    let a := advance parse st store t
    let r := genLoop parse a.2.1 a.2.2 t ts
    (a.1 ++ r.1, r.2.1, r.2.2)

/-- A whole `generate` run from the initial state and an empty store. -/
def runGen (parse : ParseFn) (snaps : List String) : List SSEvent :=
  (genLoop parse initState [] "" snaps).1

/-- The loop alone (no finalization), for talking about run prefixes. -/
def advanceOnly (parse : ParseFn) (st : EngineState) (store : Store) :
    List String → List SSEvent × EngineState × Store
  | [] => ([], st, store)
  | t :: ts =>
    let a := advance parse st store t
    let r := advanceOnly parse a.2.1 a.2.2 ts
    (a.1 ++ r.1, r.2.1, r.2.2)

/-- The run with the source's outermost `try/except` made explicit: the
whole loop and finalization sit inside one `try`, so an internal fault
while handling the `faultAt`-th remaining step (snapshots first, then
finalization) aborts everything and yields the single `error` event the
`except` produces.  `faultAt` past the end means no fault occurs. -/
def genLoopFault (parse : ParseFn) (msg : String) (faultAt : Nat) (st : EngineState)
    (store : Store) (lastText : String) : List String → List SSEvent × EngineState × Store
  | [] =>
    if faultAt = 0 then ([SSEvent.error msg], st, store)
    else
      let f := finalizeGen parse st store lastText
      (f.1, st, f.2)
  | t :: ts =>
    if faultAt = 0 then ([SSEvent.error msg], st, store)
    else
      let a := advance parse st store t
      let r := genLoopFault parse msg (faultAt - 1) a.2.1 a.2.2 t ts
      (a.1 ++ r.1, r.2.1, r.2.2)

/-- A parse function for concrete runs that never matches. -/
def parseNone : ParseFn := fun _ => none

/-! ## Task-list store endpoints (app.py) -/

/-- The statuses `update_todos` accepts. -/
def validStatuses : List String := ["pending", "in_progress", "completed"]

/-- An HTTP-level outcome: 200 success, 4xx client failure, or the
`except` handler's 500. -/
inductive ApiResult where
  | ok (msg : String)
  | clientErr (code : Nat) (msg : String)
  | serverErr (msg : String)
deriving DecidableEq, Repr

/-- A request body for `POST /api/todos`: the optional `todos` key.  The
whole body being `None` is modelled by wrapping in an outer `Option` at
the call site. -/
structure TodosReq where
  todos : Option (List RawTodo)
deriving DecidableEq, Repr

/-- The validation loop of `update_todos`: for each item in order, first
`all(key in todo for key in ['id', 'content', 'status'])`, then
`todo['status'] not in ['pending', 'in_progress', 'completed']`; the
first violation aborts with its message. -/
def validateTodos : List RawTodo → Option String
  | [] => none
  | t :: ts =>
    if !(t.id.isSome && t.content.isSome && t.status.isSome) then some "Todo格式错误"
    else
      match t.status with
      | some s => if s ∈ validStatuses then validateTodos ts else some "状态值无效"
      | none => some "Todo格式错误"

/-- `POST /api/todos` (`update_todos`): returns the HTTP result, the new
store, and the list of broadcast payloads pushed over the WebSocket. -/
def updateTodos (store : Store) (data : Option TodosReq) : ApiResult × Store × List Store :=
  match data with
  | none => (.clientErr 400 "请求数据为空", store, [])
  | some req =>
    let todos := req.todos.getD []
    match validateTodos todos with
    | some msg => (.clientErr 400 msg, store, [])
    | none => (.ok "Todolist更新成功", todos, [todos])

/-- `DELETE /api/todos` (`clear_todos`). -/
def clearTodos (_store : Store) : ApiResult × Store × List Store :=
  (.ok "Todolist已清空", [], [[]])

/-- The `update` object of `POST /api/todos/update`: optional `id`,
`status`, `content` keys (the empty dict is all-`none`). -/
structure UpdateReq where
  uid : Option String
  ustatus : Option String
  ucontent : Option String
deriving DecidableEq, Repr

/-- Outcome of the search loop of `update_single_todo`. -/
inductive WalkResult where
  | found (store : Store)
  | notFound
  | keyError
deriving DecidableEq, Repr

/-- The `for todo in current_todos` loop of `update_single_todo`: first
item whose `id` equals the target gets its `status` overwritten (no
validation) and, when the update carries one, its `content`; an item
without an `id` key raises `KeyError` (caught by the endpoint's
`except`, after no mutation has happened). -/
def updateWalk (i s : String) (c : Option String) : Store → WalkResult
  | [] => .notFound
  | t :: ts =>
    match t.id with
    | none => .keyError
    | some j =>
      if j = i then
        .found ({ t with status := some s, content := if c.isSome then c else t.content } :: ts)
      else
        match updateWalk i s c ts with
        | .found ts' => .found (t :: ts')
        | r => r

/-- `POST /api/todos/update` (`update_single_todo`): body `None` → 400;
`update` missing/empty or lacking `id`/`status` → 400; unknown id → 404;
otherwise mutate that one item and broadcast. -/
def updateSingleTodo (store : Store) (data : Option (Option UpdateReq)) :
    ApiResult × Store × List Store :=
  match data with
  | none => (.clientErr 400 "请求数据为空", store, [])
  | some none => (.clientErr 400 "update参数格式错误", store, [])
  | some (some u) =>
    match u.uid, u.ustatus with
    | some i, some s =>
      match updateWalk i s u.ucontent store with
      | .found store' => (.ok "任务状态更新成功", store', [store'])
      | .notFound => (.clientErr 404 ("未找到ID为 " ++ i ++ " 的任务"), store, [])
      | .keyError => (.serverErr "KeyError", store, [])
    | _, _ => (.clientErr 400 "update参数格式错误", store, [])

/-! ## Tool module registry (sumo_tools.py) -/

/-- One entry of `AVAILABLE_MODULES`. -/
structure ModuleConfig where
  moduleName : String
  serverVar : Option String
  tools : List String
deriving DecidableEq, Repr

/-- `AVAILABLE_MODULES` (descriptions, which no code path branches on,
are omitted). -/
def availableModules : List (String × ModuleConfig) :=
  [("auxiliary", ⟨"auxiliary_tools", some "auxiliary_mcp",
      ["osm_download_by_place", "generate_random_trips", "tls_cycle_adaptation",
       "tls_coordinator", "create_sumo_config", "show_picture", "run_simulation",
       "compare_simulation_results"]⟩),
   ("detector", ⟨"sumo_tools.detector.mcp_tools", some "detector_mcp",
      ["convert_flow_to_edge_data", "convert_edge_data_to_flow",
       "map_detector_coordinates", "aggregate_flows"]⟩),
   ("district", ⟨"sumo_tools.district.mcp_tools", some "district_mcp",
      ["filter_districts_by_vehicle_class", "generate_grid_districts",
       "generate_station_districts"]⟩),
   ("drt", ⟨"sumo_tools.drt.mcp_tools", some "drt_mcp", ["optimize_drt_routes"]⟩),
   ("xml", ⟨"sumo_tools.xml.mcp_tools", some "xml_mcp",
      ["convert_csv_to_xml", "convert_xml_to_csv", "change_xml_attribute",
       "filter_xml_elements"]⟩),
   ("visualization", ⟨"sumo_tools.visualization.mcp_tools", some "visualization_mcp",
      ["plot_csv_bars", "plot_csv_pie", "plot_csv_timeline", "plot_net_dump",
       "plot_net_selection", "plot_net_speeds", "plot_net_traffic_lights",
       "plot_summary", "plot_xml_attributes"]⟩),
   ("tls", ⟨"sumo_tools.tls.mcp_tools", some "tls_mcp",
      ["create_tls_csv", "tls_csv_signal_groups"]⟩),
   ("turn_defs", ⟨"sumo_tools.turn_defs.mcp_tools", some "turn_defs_mcp",
      ["generate_turn_ratios", "turn_count_to_edge_count", "turn_file_to_edge_relations"]⟩),
   ("importtool", ⟨"sumo_tools.importtool.mcp_tools", some "importtool_mcp",
      ["citybrain_flow_import", "citybrain_infostep_import", "citybrain_road_import",
       "gtfs2fcd_import", "gtfs2pt_import", "vissim_parse_routes",
       "visum_convert_edge_types", "dxf2jupedsim_import"]⟩),
   ("bin", ⟨"sumo_tools.bin.mcp_tools", some "bin_mcp",
      ["netconvert", "netgenerate", "od2trips"]⟩)]

/-- The module ids of `AVAILABLE_MODULES`. -/
def availableIds : List String := availableModules.map (·.1)

/-- What the Python runtime would yield for one module: whether
`importlib.import_module` succeeded, whether the imported module has the
configured server variable, whether that object passes the
FastMCP-server check (`hasattr(server, 'mount') or hasattr(server,
'_tools')`), and whether `mcp.mount` itself raises. -/
structure PyModule where
  hasServerVar : Bool
  serverHasMount : Bool
  serverHasTools : Bool
  mountRaise : Option (String × String)
deriving DecidableEq, Repr

/-- Outcome of `importlib.import_module(config['module_name'])`:
success, `ImportError`, or some other exception (type name, message). -/
inductive ImportOutcome where
  | ok (m : PyModule)
  | importErr (msg : String)
  | raised (ty msg : String)
deriving DecidableEq, Repr

/-- The load environment: an oracle from module path to what importing it
does.  All registry theorems hold for every environment. -/
abbrev LoadEnv := String → ImportOutcome

/-- The dict `_mount_single_module` returns, reduced to the fields code
and claims inspect (`success`, `message`, `error_type` when present). -/
structure SingleResult where
  success : Bool
  message : String
  errorType : Option String
deriving DecidableEq, Repr

/-- `AVAILABLE_MODULES[id]` lookup. -/
def lookupModule (id : String) : Option ModuleConfig :=
  match availableModules.find? (fun p => p.1 == id) with
  | some p => some p.2
  | none => none

/-- `_mount_single_module`: validation, unknown-id check, already-mounted
check, then the `try` block (import, `server_var` presence, `hasattr`,
server-object check, `mcp.mount`, record in `mounted_modules`).  Returns
the per-id result and the possibly-grown mounted set. -/
def mountSingle (env : LoadEnv) (mounted : List String) (id : String) :
    SingleResult × List String :=
  if id = "" then (⟨false, "模块ID不能为空且必须是字符串", some "ValidationError"⟩, mounted)
  else
    match lookupModule id with
    | none => (⟨false, "模块 '" ++ id ++ "' 不存在", none⟩, mounted)
    | some config =>
      if id ∈ mounted then
        (⟨false, "模块 '" ++ id ++ "' 已经挂载，无法重复挂载", none⟩, mounted)
      else
        match env config.moduleName with
        | .importErr msg =>
          (⟨false, "导入模块 '" ++ id ++ "' 失败: " ++ msg, some "ImportError"⟩, mounted)
        | .raised ty msg =>
          if ty = "AttributeError" then
            (⟨false, "模块 '" ++ id ++ "' 缺少必要的属性: " ++ msg, some "AttributeError"⟩, mounted)
          else
            (⟨false, "挂载模块 '" ++ id ++ "' 时发生未预期的错误: " ++ msg, some ty⟩, mounted)
        | .ok m =>
          match config.serverVar with
          | none =>
            (⟨false, "模块 '" ++ id ++ "' 配置无效：缺少 'server_var'",
              some "ConfigurationError"⟩, mounted)
          | some sv =>
            if !m.hasServerVar then
              (⟨false, "模块 '" ++ id ++ "' 中未找到服务器变量 '" ++ sv ++ "'",
                some "AttributeError"⟩, mounted)
            else if !(m.serverHasMount || m.serverHasTools) then
              (⟨false, "'" ++ sv ++ "' 不是有效的FastMCP服务器对象",
                some "ValidationError"⟩, mounted)
            else
              match m.mountRaise with
              | some (ty, msg) =>
                if ty = "AttributeError" then
                  (⟨false, "模块 '" ++ id ++ "' 缺少必要的属性: " ++ msg,
                    some "AttributeError"⟩, mounted)
                else
                  (⟨false, "挂载模块 '" ++ id ++ "' 时发生未预期的错误: " ++ msg,
                    some ty⟩, mounted)
              | none => (⟨true, "成功挂载模块 '" ++ id ++ "'", none⟩, id :: mounted)

/-- One entry of the `details` list of `mount_module`'s report. -/
structure MountDetail where
  moduleId : String
  success : Bool
  message : String
deriving DecidableEq, Repr

/-- The `for module_id in module_ids` loop: per-id details in order plus
success/failure counters threaded through the growing mounted set. -/
def mountLoop (env : LoadEnv) (mounted : List String) :
    List String → List MountDetail × List String × Nat × Nat
  | [] => ([], mounted, 0, 0)
  | id :: ids =>
    let r := mountSingle env mounted id
    let rest := mountLoop env r.2 ids
    (⟨id, r.1.success, r.1.message⟩ :: rest.1, rest.2.1,
      (if r.1.success then rest.2.2.1 + 1 else rest.2.2.1),
      (if r.1.success then rest.2.2.2 else rest.2.2.2 + 1))

/-- The aggregate report `mount_module` returns on a non-empty request
(timing fields, which depend on the wall clock, are omitted). -/
structure MountReport where
  success : Bool
  message : String
  totalRequested : Nat
  successCount : Nat
  failedCount : Nat
  details : List MountDetail
  totalMounted : Nat
deriving DecidableEq, Repr

/-- `mount_module`'s argument as the dynamically-typed call site passes
it: a bare string or a list of strings. -/
inductive MountInput where
  | ofStr (s : String)
  | ofList (l : List String)
deriving DecidableEq, Repr

/-- `mount_module`'s return value: the early top-level `ValidationError`
dict, or the full report. -/
inductive MountResult where
  | invalid (msg : String)
  | report (r : MountReport)
deriving DecidableEq, Repr

/-- `mount_module`: the `if not module_ids` emptiness check (an empty
list or empty string is falsy), then the string→list conversion, then
the per-id loop and the aggregate report. -/
def mountModule (env : LoadEnv) (mounted : List String) (input : MountInput) :
    MountResult × List String :=
  let isEmptyInput :=
    match input with
    | .ofStr s => s == ""
    | .ofList l => l.isEmpty
  if isEmptyInput then (.invalid "模块ID列表不能为空", mounted)
  else
    let ids :=
      match input with
      | .ofStr s => [s]
      | .ofList l => l
    let r := mountLoop env mounted ids
    (.report ⟨r.2.2.2 = 0,
      "批量挂载完成：成功 " ++ toString r.2.2.1 ++ " 个，失败 " ++ toString r.2.2.2 ++ " 个",
      ids.length, r.2.2.1, r.2.2.2, r.1, r.2.1.length⟩, r.2.1)

/-- An environment where every load succeeds, for concrete runs. -/
def envAllOk : LoadEnv := fun _ => .ok ⟨true, true, true, none⟩

/-! ## Observation helpers for the theorems -/

/-- The section names of the `section_start` events, in order. -/
def startNames (evs : List SSEvent) : List String :=
  evs.filterMap fun e =>
    match e with
    | .sectionStart s => some s
    | _ => none

/-- The payloads of the `content` events for the section `sec`, in order. -/
def contentsFor (sec : String) (evs : List SSEvent) : List String :=
  evs.filterMap fun e =>
    match e with
    | .content s c => if s = sec then some c else none
    | _ => none

/-- Events recording a store/registry side effect. -/
def isMutation (e : SSEvent) : Bool :=
  match e with
  | .todoReplace _ => true
  | .refreshTools => true
  | _ => false

/-- `section_complete` events. -/
def isSectionCompleteEv (e : SSEvent) : Bool :=
  match e with
  | .sectionComplete _ => true
  | _ => false

/-- Replay the store mutations a list of events records. -/
def applyEvents (store : Store) (evs : List SSEvent) : Store :=
  evs.foldl
    (fun s e =>
      match e with
      | .todoReplace ts => ts
      | _ => s)
    store

/-- The four base section kinds the marker set can produce. -/
def sectionBases : List String := ["think", "tool-calls", "tool-responses", "answer"]

/-- Stated from the spec's numbering rule, for the refinement claim C4:
given the sequence of base kinds in stream order, the i-th occurrence of
a kind is displayed bare for i = 1 and as `kind-i` afterwards. -/
def specNumbering (counters : List (String × Nat)) : List String → List String
  | [] => []
  | b :: bs =>
    displayNameOf b (countersGet counters b + 1) ::
      specNumbering (countersSet counters b (countersGet counters b + 1)) bs

/-- States reachable by `generate` from the top: before the first marker
is seen, no counter has been touched and `last_marker_pos` is still -1. -/
def WF (st : EngineState) : Prop :=
  st.currentSection = none → st.sectionCounters = [] ∧ st.lastMarkerPos = -1

/-- A todo item `update_todos`'s validation loop rejects: a missing
`id`/`content`/`status` key, or a status outside the allowed three. -/
def invalidTodo (t : RawTodo) : Bool :=
  !(t.id.isSome && t.content.isSome && t.status.isSome) ||
    (match t.status with
     | some s => decide (s ∉ validStatuses)
     | none => true)

/-! ## Task-list store theorems -/

theorem validateTodos_ok {ts : List RawTodo} (h : validateTodos ts = none) :
    ∀ t ∈ ts, invalidTodo t = false := by
  induction ts with
  | nil => simp
  | cons t ts ih =>
    intro x hx
    unfold validateTodos at h
    split at h
    · exact absurd h (by simp)
    · rename_i hkeys
      split at h
      · rename_i s hs
        split at h
        · rename_i hmem
          rcases List.mem_cons.mp hx with rfl | hx'
          · have hk : (x.id.isSome && x.content.isSome && x.status.isSome) = true := by
              revert hkeys
              cases x.id.isSome && x.content.isSome && x.status.isSome <;> simp
            simp only [Bool.and_eq_true] at hk
            simp [invalidTodo, hs, hmem, hk.1.1, hk.1.2, hk.2]
          · exact ih h x hx'
        · exact absurd h (by simp)
      · exact absurd h (by simp)

/-- C9: a full-list write whose body lacks the `todos` key, or carries an
empty array, succeeds, replaces the stored list with the empty list, and
broadcasts the empty list. -/
theorem C9_empty_replace_clears :
    ∀ store : Store,
      updateTodos store (some ⟨none⟩) = (.ok "Todolist更新成功", [], [[]]) ∧
      updateTodos store (some ⟨some []⟩) = (.ok "Todolist更新成功", [], [[]]) :=
  fun _ => ⟨rfl, rfl⟩

/-- C5: a full-list write containing an item with a missing
`id`/`content`/`status` key or an unrecognized status fails with a 400
validation error, and the previously stored list (and broadcast stream)
is completely unchanged. -/
theorem C5_replace_all_or_nothing :
    ∀ (store : Store) (todos : List RawTodo),
      (∃ t ∈ todos, invalidTodo t = true) →
      ∃ msg, updateTodos store (some ⟨some todos⟩) = (.clientErr 400 msg, store, []) := by
  intro store todos h
  obtain ⟨t, ht, hbad⟩ := h
  cases hval : validateTodos todos with
  | some msg => exact ⟨msg, by simp [updateTodos, hval]⟩
  | none => exact absurd hbad (by simp [validateTodos_ok hval t ht])

theorem C5_witness :
    (∃ t ∈ [RawTodo.mk (some "1") (some "x") none], invalidTodo t = true) ∧
    ∃ msg,
      updateTodos [⟨some "0", some "o", some "pending"⟩]
          (some ⟨some [⟨some "1", some "x", none⟩]⟩) =
        (.clientErr 400 msg, [⟨some "0", some "o", some "pending"⟩], []) :=
  ⟨by decide, C5_replace_all_or_nothing _ _ (by decide)⟩

/-- C3 counterexample: `update_single_todo` accepts the unrecognized
status `"bogus"` on an existing id, reports success, and writes the
unknown status into the stored item — the claimed validation failure
with an unchanged list does not happen. -/
theorem C3_counterexample :
    updateSingleTodo [⟨some "1", some "x", some "pending"⟩]
        (some (some ⟨some "1", some "bogus", none⟩)) =
      (.ok "任务状态更新成功", [⟨some "1", some "x", some "bogus"⟩],
        [[⟨some "1", some "x", some "bogus"⟩]]) := by
  decide

theorem updateWalk_found {i : String} {pre : Store}
    (hpre : ∀ p ∈ pre, ∃ j, p.id = some j ∧ j ≠ i) (t : RawTodo) (post : Store)
    (ht : t.id = some i) (s : String) (c : Option String) :
    updateWalk i s c (pre ++ t :: post) =
      .found (pre ++ { t with status := some s, content := if c.isSome then c else t.content }
        :: post) := by
  induction pre with
  | nil => simp [updateWalk, ht]
  | cons p pre ih =>
    obtain ⟨j, hj, hne⟩ := hpre p (by simp)
    have := ih (fun q hq => hpre q (by simp [hq]))
    simp [updateWalk, hj, hne, this]

theorem updateWalk_notFound {i : String} {store : Store}
    (h : ∀ p ∈ store, ∃ j, p.id = some j ∧ j ≠ i) (s : String) (c : Option String) :
    updateWalk i s c store = .notFound := by
  induction store with
  | nil => rfl
  | cons p rest ih =>
    obtain ⟨j, hj, hne⟩ := h p (by simp)
    have := ih (fun q hq => h q (by simp [hq]))
    simp [updateWalk, hj, hne, this]

/-- C3 as the code actually behaves: `update_single_todo` performs no
status validation at all — with a well-formed update object naming an
existing id it succeeds for every status string, writing that status
verbatim into the one addressed item; it fails only for a missing/empty
`update` object or missing `id`/`status` (400) or an unknown id (404),
leaving the list unchanged in those cases. -/
theorem C3_update_one_unvalidated_status :
    (∀ (pre post : Store) (t : RawTodo) (i s : String) (c : Option String),
        (∀ p ∈ pre, ∃ j, p.id = some j ∧ j ≠ i) → t.id = some i →
        updateSingleTodo (pre ++ t :: post) (some (some ⟨some i, some s, c⟩)) =
          (.ok "任务状态更新成功",
            pre ++ { t with status := some s, content := if c.isSome then c else t.content }
              :: post,
            [pre ++ { t with status := some s, content := if c.isSome then c else t.content }
              :: post])) ∧
    (∀ (store : Store) (i s : String) (c : Option String),
        (∀ p ∈ store, ∃ j, p.id = some j ∧ j ≠ i) →
        updateSingleTodo store (some (some ⟨some i, some s, c⟩)) =
          (.clientErr 404 ("未找到ID为 " ++ i ++ " 的任务"), store, [])) ∧
    (∀ (store : Store) (u : UpdateReq), u.uid = none ∨ u.ustatus = none →
        updateSingleTodo store (some (some u)) =
          (.clientErr 400 "update参数格式错误", store, [])) := by
  refine ⟨?_, ?_, ?_⟩
  · intro pre post t i s c hpre ht
    simp [updateSingleTodo, updateWalk_found hpre t post ht s c]
  · intro store i s c h
    simp [updateSingleTodo, updateWalk_notFound h s c]
  · intro store u h
    obtain ⟨uid, ust, uc⟩ := u
    rcases h with h | h <;> simp only at h <;> subst h
    · cases ust <;> rfl
    · cases uid <;> rfl

/-! ## Tool module registry theorems -/

theorem mountSingle_mounted (env : LoadEnv) {mounted : List String} {id : String}
    (h : id ∈ mounted) :
    (mountSingle env mounted id).1.success = false ∧ (mountSingle env mounted id).2 = mounted := by
  by_cases he : id = ""
  · subst he
    exact ⟨rfl, rfl⟩
  · unfold mountSingle
    rw [if_neg he]
    cases hl : lookupModule id with
    | none => exact ⟨rfl, rfl⟩
    | some cfg =>
      dsimp only
      rw [if_pos h]
      exact ⟨rfl, rfl⟩

/-- C8: a mount request for an already-mounted module is rejected with a
failure result (both per-id and through `mount_module`), the module is
not re-attached, and the mounted set is unchanged. -/
theorem C8_remount_rejected :
    ∀ (env : LoadEnv) (mounted : List String) (id : String), id ∈ mounted →
      (mountSingle env mounted id).1.success = false ∧
      (mountSingle env mounted id).2 = mounted ∧
      (∃ r, (mountModule env mounted (.ofList [id])).1 = .report r ∧
        r.successCount = 0 ∧ r.failedCount = 1 ∧ r.details.map (·.success) = [false]) ∧
      (mountModule env mounted (.ofList [id])).2 = mounted := by
  intro env mounted id h
  obtain ⟨hsucc, hm⟩ := mountSingle_mounted env h
  have hloop : mountLoop env mounted [id] =
      ([⟨id, false, (mountSingle env mounted id).1.message⟩], mounted, 0, 1) := by
    simp [mountLoop, hsucc, hm]
  have hmod : mountModule env mounted (.ofList [id]) =
      (.report ⟨false,
        "批量挂载完成：成功 " ++ toString (0 : Nat) ++ " 个，失败 " ++ toString (1 : Nat) ++ " 个",
        1, 0, 1, [⟨id, false, (mountSingle env mounted id).1.message⟩], mounted.length⟩,
        mounted) := by
    simp [mountModule, hloop]
  rw [hmod]
  exact ⟨hsucc, hm, ⟨_, rfl, rfl, rfl, rfl⟩, rfl⟩

theorem C8_witness :
    ("bin" ∈ ["bin"]) ∧
    ((mountSingle envAllOk ["bin"] "bin").1.success = false ∧
      (mountSingle envAllOk ["bin"] "bin").2 = ["bin"] ∧
      (∃ r, (mountModule envAllOk ["bin"] (.ofList ["bin"])).1 = .report r ∧
        r.successCount = 0 ∧ r.failedCount = 1 ∧ r.details.map (·.success) = [false]) ∧
      (mountModule envAllOk ["bin"] (.ofList ["bin"])).2 = ["bin"]) :=
  ⟨by decide, C8_remount_rejected envAllOk ["bin"] "bin" (by decide)⟩

/-- C10 counterexample: `mount_module("")` is not treated as
`mount_module([""])` — the empty string is falsy, so it hits the
emptiness validation before the string→list conversion, while `[""]`
produces a per-id report. -/
theorem C10_counterexample :
    mountModule envAllOk [] (.ofStr "") ≠ mountModule envAllOk [] (.ofList [""]) := by
  decide

/-- C10 as the code actually behaves: an empty id list (and likewise the
falsy empty string) fails the top-level validation before any module is
attempted, leaving the mounted set unchanged; a bare **non-empty** string
is treated exactly as the one-element list containing it. -/
theorem C10_empty_validation_and_string :
    (∀ (env : LoadEnv) (mounted : List String),
        mountModule env mounted (.ofList []) = (.invalid "模块ID列表不能为空", mounted)) ∧
    (∀ (env : LoadEnv) (mounted : List String),
        mountModule env mounted (.ofStr "") = (.invalid "模块ID列表不能为空", mounted)) ∧
    (∀ (env : LoadEnv) (mounted : List String) (s : String),
        s ≠ "" → mountModule env mounted (.ofStr s) = mountModule env mounted (.ofList [s])) := by
  refine ⟨fun env mounted => rfl, fun env mounted => rfl, fun env mounted s hs => ?_⟩
  have h : (s == "") = false := by simpa using hs
  simp [mountModule, h]

theorem lookupModule_eq_none {id : String} (h : id ∉ availableIds) : lookupModule id = none := by
  have hf : availableModules.find? (fun p => p.1 == id) = none :=
    List.find?_eq_none.mpr fun p hp hbeq =>
      h (List.mem_map.mpr ⟨p, hp, beq_iff_eq.mp hbeq⟩)
  simp [lookupModule, hf]

theorem mountSingle_unknown {env : LoadEnv} {mounted : List String} {id : String}
    (h : id ∉ availableIds) : (mountSingle env mounted id).1.success = false := by
  by_cases he : id = ""
  · subst he
    rfl
  · unfold mountSingle
    rw [if_neg he, lookupModule_eq_none h]

theorem mountSingle_importErr {env : LoadEnv} {mounted : List String} {id : String}
    {cfg : ModuleConfig} {msg : String} (he : id ≠ "") (hl : lookupModule id = some cfg)
    (hm : id ∉ mounted) (henv : env cfg.moduleName = .importErr msg) :
    mountSingle env mounted id =
      (⟨false, "导入模块 '" ++ id ++ "' 失败: " ++ msg, some "ImportError"⟩, mounted) := by
  unfold mountSingle
  rw [if_neg he, hl]
  dsimp only
  rw [if_neg hm]
  rw [henv]

theorem mountSingle_snd (env : LoadEnv) (mounted : List String) (id : String) :
    (mountSingle env mounted id).2 = mounted ∨
      ((mountSingle env mounted id).1.success = true ∧
        (mountSingle env mounted id).2 = id :: mounted) := by
  unfold mountSingle
  split
  · exact .inl rfl
  · cases lookupModule id with
    | none => exact .inl rfl
    | some cfg =>
      dsimp only
      split
      · exact .inl rfl
      · cases env cfg.moduleName with
        | importErr m => exact .inl rfl
        | raised ty m =>
          dsimp only
          split <;> exact .inl rfl
        | ok pm =>
          cases cfg.serverVar with
          | none => exact .inl rfl
          | some sv =>
            dsimp only
            split
            · exact .inl rfl
            · split
              · exact .inl rfl
              · cases hr : pm.mountRaise with
                | some pr =>
                  obtain ⟨ty, m⟩ := pr
                  dsimp only
                  split <;> exact .inl rfl
                | none => exact .inr ⟨rfl, rfl⟩

theorem mountSingle_fail_snd {env : LoadEnv} {mounted : List String} {id : String}
    (h : (mountSingle env mounted id).1.success = false) :
    (mountSingle env mounted id).2 = mounted := by
  rcases mountSingle_snd env mounted id with hs | ⟨ht, _⟩
  · exact hs
  · rw [ht] at h
    exact absurd h (by simp)

theorem mountLoop_map (env : LoadEnv) (mounted : List String) (ids : List String) :
    (mountLoop env mounted ids).1.map (·.moduleId) = ids := by
  induction ids generalizing mounted with
  | nil => rfl
  | cons id ids ih => simp [mountLoop, ih]

theorem mountLoop_counts (env : LoadEnv) (mounted : List String) (ids : List String) :
    (mountLoop env mounted ids).2.2.1 + (mountLoop env mounted ids).2.2.2 = ids.length := by
  induction ids generalizing mounted with
  | nil => rfl
  | cons id ids ih =>
    have ih' := ih (mountSingle env mounted id).2
    simp only [mountLoop, List.length_cons]
    cases (mountSingle env mounted id).1.success <;> simp <;> omega

theorem mountLoop_unknown (env : LoadEnv) (mounted : List String) (ids : List String) :
    ∀ d ∈ (mountLoop env mounted ids).1, d.moduleId ∉ availableIds → d.success = false := by
  induction ids generalizing mounted with
  | nil => simp [mountLoop]
  | cons id ids ih =>
    intro d hd hna
    simp only [mountLoop, List.mem_cons] at hd
    rcases hd with rfl | hd
    · exact mountSingle_unknown hna
    · exact ih _ d hd hna

/-- C7: `mount_module` with a non-empty id list processes every id,
in order, independently: the report carries one per-id result for each
requested id, its success and failure counts sum to the number of
requested ids, an unknown id yields a failure for that id only, a
failing import yields an `ImportError` result for that id with the
mounted set untouched, and any per-id failure leaves the mounted set
unchanged so the remaining ids are attempted against unchanged state. -/
theorem C7_mount_per_id_isolation :
    (∀ (env : LoadEnv) (mounted : List String) (ids : List String), ids ≠ [] →
      ∃ r, (mountModule env mounted (.ofList ids)).1 = .report r ∧
        r.details.map (·.moduleId) = ids ∧
        r.successCount + r.failedCount = ids.length ∧
        r.totalRequested = ids.length ∧
        (∀ d ∈ r.details, d.moduleId ∉ availableIds → d.success = false)) ∧
    (∀ (env : LoadEnv) (mounted : List String) (id : String) (cfg : ModuleConfig) (msg : String),
        id ≠ "" → lookupModule id = some cfg → id ∉ mounted →
        env cfg.moduleName = .importErr msg →
        mountSingle env mounted id =
          (⟨false, "导入模块 '" ++ id ++ "' 失败: " ++ msg, some "ImportError"⟩, mounted)) ∧
    (∀ (env : LoadEnv) (mounted : List String) (id : String),
        (mountSingle env mounted id).1.success = false →
        (mountSingle env mounted id).2 = mounted) := by
  refine ⟨?_, fun env mounted id cfg msg he hl hm henv => mountSingle_importErr he hl hm henv,
    fun env mounted id h => mountSingle_fail_snd h⟩
  intro env mounted ids hne
  match ids, hne with
  | id :: ids', _ =>
    exact ⟨_, rfl, mountLoop_map env mounted (id :: ids'),
      mountLoop_counts env mounted (id :: ids'), rfl,
      mountLoop_unknown env mounted (id :: ids')⟩

/-! ## Segmentation engine: structural lemmas -/

theorem extractTodoCmd_mut (parse : ParseFn) (store : Store) (sc : String) :
    ∀ e ∈ (extractTodoCmd parse store sc).1, isMutation e = true := by
  unfold extractTodoCmd
  split
  · cases parse sc with
    | none => simp
    | some ts =>
      dsimp only
      split <;> simp [isMutation]
  · simp

theorem extractMountCmd_mut (sc : String) : ∀ e ∈ extractMountCmd sc, isMutation e = true := by
  unfold extractMountCmd
  split <;> simp [isMutation]

theorem closeExtraction_mut (parse : ParseFn) (store : Store) (cs sc : String) :
    ∀ e ∈ (closeExtraction parse store cs sc).1, isMutation e = true := by
  unfold closeExtraction
  split
  · intro e he
    rcases List.mem_append.mp he with h | h
    · exact extractTodoCmd_mut parse store sc e h
    · exact extractMountCmd_mut sc e h
  · simp

theorem contentStep_shape (st : EngineState) (text : String) :
    contentStep st text = ([], st) ∨
      ∃ cs c, st.currentSection = some cs ∧ sectionContentAt st text = some c ∧ c ≠ "" ∧
        c ≠ st.lastSentContent ∧
        contentStep st text = ([SSEvent.content cs c], { st with lastSentContent := c }) := by
  unfold contentStep
  cases hcs : st.currentSection with
  | none => exact .inl rfl
  | some cs =>
    cases hc : sectionContentAt st text with
    | none => exact .inl rfl
    | some c =>
      dsimp only
      split
      · rename_i hcond
        simp only [Bool.and_eq_true, bne_iff_ne, ne_eq] at hcond
        exact .inr ⟨cs, c, rfl, rfl, hcond.1, hcond.2, rfl⟩
      · exact .inl rfl

theorem sectionContentAt_lastSent (st : EngineState) (x : String) (text : String) :
    sectionContentAt { st with lastSentContent := x } text = sectionContentAt st text := rfl

theorem findNextMarker_mem (text : String) (start : Int) {m : String} :
    ∀ (ms : List String) (acc : Option String × Nat),
      (findNextMarker text start ms acc).1 = some m → m ∈ ms ∨ acc.1 = some m := by
  intro ms
  induction ms with
  | nil => intro acc h; exact .inr h
  | cons x ms ih =>
    intro acc h
    rcases ih _ h with h' | h'
    · exact .inl (List.mem_cons_of_mem x h')
    · revert h'
      cases hf : pyFindFrom text x start with
      | none => exact fun h' => .inr h'
      | some q =>
        dsimp only
        split
        · intro h'
          simp only [Option.some.injEq] at h'
          exact .inl (h' ▸ List.mem_cons_self x ms)
        · exact fun h' => .inr h'

theorem scanFirstMarker_mem (text : String) {m : String} {p : Nat} :
    ∀ ms : List String, scanFirstMarker text ms = some (m, p) → m ∈ ms := by
  intro ms
  induction ms with
  | nil => intro h; exact absurd h (by simp [scanFirstMarker])
  | cons x ms ih =>
    intro h
    unfold scanFirstMarker at h
    revert h
    cases hf : pyFindFrom text x 0 with
    | none => exact fun h => List.mem_cons_of_mem x (ih h)
    | some q =>
      intro h
      simp only [Option.some.injEq, Prod.mk.injEq] at h
      exact h.1 ▸ List.mem_cons_self x ms

/-- The four shapes of the boundary-handling branch: nothing happens; the
(initial-scan) `elif` opens a first section; a new marker is found with no
section open; or a new marker closes the current section (running command
extraction) and opens the next one. -/
theorem advanceBranch_shape (parse : ParseFn) (st : EngineState) (store : Store) (text : String) :
    advanceBranch parse st store text = ([], st, store) ∨
    (∃ m p, m ∈ sectionMarkers ∧ st.currentSection = none ∧
      scanFirstMarker text sectionMarkers = some (m, p) ∧
      ((findNextMarker text (st.lastMarkerPos + 1) sectionMarkers (none, text.data.length)).1 =
          none ∨
        ∃ m' p',
          findNextMarker text (st.lastMarkerPos + 1) sectionMarkers (none, text.data.length) =
            (some m', p') ∧ ¬st.lastMarkerPos < (p' : Int)) ∧
      advanceBranch parse st store text =
        ([SSEvent.sectionStart (fixBaseName (baseSectionName m))],
          ⟨some (fixBaseName (baseSectionName m)), (p : Int), "",
            countersSet st.sectionCounters (fixBaseName (baseSectionName m)) 1⟩, store)) ∨
    (∃ m p nm, m ∈ sectionMarkers ∧ st.currentSection = none ∧ st.lastMarkerPos < (p : Int) ∧
      nm = displayNameOf (fixBaseName (baseSectionName m))
        (countersGet st.sectionCounters (fixBaseName (baseSectionName m)) + 1) ∧
      advanceBranch parse st store text =
        ([SSEvent.sectionStart nm],
          ⟨some nm, (p : Int), "",
            countersSet st.sectionCounters (fixBaseName (baseSectionName m))
              (countersGet st.sectionCounters (fixBaseName (baseSectionName m)) + 1)⟩, store)) ∨
    (∃ m p nm cs, m ∈ sectionMarkers ∧ st.currentSection = some cs ∧
      st.lastMarkerPos < (p : Int) ∧
      nm = displayNameOf (fixBaseName (baseSectionName m))
        (countersGet st.sectionCounters (fixBaseName (baseSectionName m)) + 1) ∧
      advanceBranch parse st store text =
        ((closeExtraction parse store cs
            (String.mk (pySlice text.data st.lastMarkerPos (p : Int)))).1 ++
            [SSEvent.sectionComplete cs] ++ [SSEvent.sectionStart nm],
          ⟨some nm, (p : Int), "",
            countersSet st.sectionCounters (fixBaseName (baseSectionName m))
              (countersGet st.sectionCounters (fixBaseName (baseSectionName m)) + 1)⟩,
          (closeExtraction parse store cs
            (String.mk (pySlice text.data st.lastMarkerPos (p : Int)))).2)) := by
  have helif : elifBranch st store text = ([], st, store) ∨
      ∃ m p, m ∈ sectionMarkers ∧ st.currentSection = none ∧
        scanFirstMarker text sectionMarkers = some (m, p) ∧
        elifBranch st store text =
          ([SSEvent.sectionStart (fixBaseName (baseSectionName m))],
            ⟨some (fixBaseName (baseSectionName m)), (p : Int), "",
              countersSet st.sectionCounters (fixBaseName (baseSectionName m)) 1⟩, store) := by
    unfold elifBranch
    cases hcs : st.currentSection with
    | some cs => exact .inl rfl
    | none =>
      cases hsc : scanFirstMarker text sectionMarkers with
      | none => exact .inl rfl
      | some mp =>
        obtain ⟨m, p⟩ := mp
        exact .inr ⟨m, p, scanFirstMarker_mem text sectionMarkers hsc, rfl, rfl, rfl⟩
  rcases hnm : findNextMarker text (st.lastMarkerPos + 1) sectionMarkers
      (none, text.data.length) with ⟨onm, p⟩
  cases onm with
  | none =>
    have hb : advanceBranch parse st store text = elifBranch st store text := by
      unfold advanceBranch
      rw [hnm]
    rcases helif with h | ⟨m, q, hm, hcs, hsc, he⟩
    · exact .inl (hb.trans h)
    · exact .inr (.inl ⟨m, q, hm, hcs, hsc, .inl rfl, hb.trans he⟩)
  | some m =>
    by_cases hlt : st.lastMarkerPos < (p : Int)
    · have hm : m ∈ sectionMarkers ∨ (none : Option String) = some m :=
        findNextMarker_mem text (st.lastMarkerPos + 1) sectionMarkers _ (by rw [hnm])
      have hm' : m ∈ sectionMarkers := by
        rcases hm with h | h
        · exact h
        · exact absurd h (by simp)
      cases hcs : st.currentSection with
      | none =>
        refine .inr (.inr (.inl ⟨m, p, _, hm', rfl, hlt, rfl, ?_⟩))
        unfold advanceBranch
        rw [hnm]
        dsimp only
        rw [if_pos hlt, hcs]
        rfl
      | some cs =>
        refine .inr (.inr (.inr ⟨m, p, _, cs, hm', rfl, hlt, rfl, ?_⟩))
        unfold advanceBranch
        rw [hnm]
        dsimp only
        rw [if_pos hlt, hcs]
    · have hb : advanceBranch parse st store text = elifBranch st store text := by
        unfold advanceBranch
        rw [hnm]
        dsimp only
        rw [if_neg hlt]
      rcases helif with h | ⟨m2, q, hm2, hcs, hsc, he⟩
      · exact .inl (hb.trans h)
      · exact .inr (.inl ⟨m2, q, hm2, hcs, hsc, .inr ⟨m, p, rfl, hlt⟩, hb.trans he⟩)

theorem advanceBranch_no_complete (parse : ParseFn) (st : EngineState) (store : Store)
    (text : String) : SSEvent.complete ∉ (advanceBranch parse st store text).1 := by
  rcases advanceBranch_shape parse st store text with h | ⟨m, p, hm, hcs, hsc, hor, h⟩ |
    ⟨m, p, nm, hm, hcs, hlt, hnm, h⟩ | ⟨m, p, nm, cs, hm, hcs, hlt, hnm, h⟩ <;> rw [h]
  · simp
  · simp
  · simp
  · intro hmem
    simp only [List.append_assoc, List.mem_append, List.mem_singleton] at hmem
    rcases hmem with hmem | hmem | hmem
    · have := closeExtraction_mut parse store cs
        (String.mk (pySlice text.data st.lastMarkerPos (p : Int))) SSEvent.complete hmem
      simp [isMutation] at this
    · exact absurd hmem (by simp)
    · exact absurd hmem (by simp)

theorem advance_no_complete (parse : ParseFn) (st : EngineState) (store : Store)
    (text : String) : SSEvent.complete ∉ (advance parse st store text).1 := by
  intro hmem
  replace hmem : SSEvent.complete ∈ (advanceBranch parse st store text).1 ++
      (contentStep (advanceBranch parse st store text).2.1 text).1 := hmem
  rcases List.mem_append.mp hmem with h | h
  · exact advanceBranch_no_complete parse st store text h
  · rcases contentStep_shape (advanceBranch parse st store text).2.1 text with hC |
      ⟨cs, c, _, _, _, _, hC⟩ <;> rw [hC] at h <;> simp at h

/-- C6 as the code actually behaves: the single `try/except` wraps the
whole streaming loop, so an internal fault while handling any snapshot
never escapes to the caller but terminates segmentation — the events
already emitted are followed by exactly one `error` event, and no
further snapshot is processed, no `section_complete` for the open
section and no terminal `complete` is ever emitted (no resumption). -/
theorem C6_fault_terminates_stream :
    ∀ (parse : ParseFn) (msg : String) (snaps : List String) (k : Nat) (st : EngineState)
      (store : Store) (lastText : String), k < snaps.length →
      (genLoopFault parse msg k st store lastText snaps).1 =
        (advanceOnly parse st store (snaps.take k)).1 ++ [SSEvent.error msg] ∧
      SSEvent.complete ∉ (genLoopFault parse msg k st store lastText snaps).1 := by
  intro parse msg snaps
  induction snaps with
  | nil =>
    intro k st store lt h
    exact absurd h (by simp)
  | cons t ts ih =>
    intro k st store lt h
    cases k with
    | zero =>
      refine ⟨rfl, ?_⟩
      rw [show (genLoopFault parse msg 0 st store lt (t :: ts)).1 = [SSEvent.error msg] from rfl]
      simp
    | succ k =>
      have h' : k < ts.length := by simpa using h
      obtain ⟨ih1, ih2⟩ := ih k (advance parse st store t).2.1 (advance parse st store t).2.2 t h'
      constructor
      · show (advance parse st store t).1 ++
            (genLoopFault parse msg k (advance parse st store t).2.1
              (advance parse st store t).2.2 t ts).1 =
          ((advance parse st store t).1 ++
            (advanceOnly parse (advance parse st store t).2.1
              (advance parse st store t).2.2 (ts.take k)).1) ++ [SSEvent.error msg]
        rw [ih1, List.append_assoc]
      · intro hc
        replace hc : SSEvent.complete ∈ (advance parse st store t).1 ++
            (genLoopFault parse msg k (advance parse st store t).2.1
              (advance parse st store t).2.2 t ts).1 := hc
        rcases List.mem_append.mp hc with hc | hc
        · exact advance_no_complete parse st store t hc
        · exact ih2 hc

theorem C6_witness :
    0 < (["[THINK]hi"] : List String).length ∧
    ((genLoopFault parseNone "boom" 0 initState [] "" ["[THINK]hi"]).1 =
        (advanceOnly parseNone initState [] ((["[THINK]hi"] : List String).take 0)).1 ++
          [SSEvent.error "boom"] ∧
      SSEvent.complete ∉ (genLoopFault parseNone "boom" 0 initState [] "" ["[THINK]hi"]).1) :=
  ⟨by decide,
    C6_fault_terminates_stream parseNone "boom" ["[THINK]hi"] 0 initState [] "" (by decide)⟩

/-- C6 counterexample: with two snapshots and a fault at the second
call, the stream ends with an `error` event — the second snapshot's
content, the open section's `section_complete` and the terminal
`complete` are never emitted, although the fault-free run emits them —
so a fault does not degrade to "no new events for that call" with
segmentation resuming on the next call. -/
theorem C6_counterexample :
    (genLoopFault parseNone "boom" 1 initState [] "" ["[THINK]a", "[THINK]ab"]).1 =
      [SSEvent.sectionStart "think", SSEvent.content "think" "a", SSEvent.error "boom"] ∧
    SSEvent.complete ∉
      (genLoopFault parseNone "boom" 1 initState [] "" ["[THINK]a", "[THINK]ab"]).1 ∧
    SSEvent.sectionComplete "think" ∉
      (genLoopFault parseNone "boom" 1 initState [] "" ["[THINK]a", "[THINK]ab"]).1 ∧
    SSEvent.content "think" "ab" ∉
      (genLoopFault parseNone "boom" 1 initState [] "" ["[THINK]a", "[THINK]ab"]).1 ∧
    SSEvent.content "think" "ab" ∈ runGen parseNone ["[THINK]a", "[THINK]ab"] ∧
    SSEvent.sectionComplete "think" ∈ runGen parseNone ["[THINK]a", "[THINK]ab"] ∧
    SSEvent.complete ∈ runGen parseNone ["[THINK]a", "[THINK]ab"] := by
  decide

theorem advanceBranch_no_content (parse : ParseFn) (st : EngineState) (store : Store)
    (text : String) (s c : String) : SSEvent.content s c ∉ (advanceBranch parse st store text).1 := by
  rcases advanceBranch_shape parse st store text with h | ⟨m, p, hm, hcs, hsc, hor, h⟩ |
    ⟨m, p, nm, hm, hcs, hlt, hnm, h⟩ | ⟨m, p, nm, cs, hm, hcs, hlt, hnm, h⟩ <;> rw [h]
  · simp
  · simp
  · simp
  · intro hmem
    simp only [List.append_assoc, List.mem_append, List.mem_singleton] at hmem
    rcases hmem with hmem | hmem | hmem
    · have := closeExtraction_mut parse store cs
        (String.mk (pySlice text.data st.lastMarkerPos (p : Int))) (SSEvent.content s c) hmem
      simp [isMutation] at this
    · exact absurd hmem (by simp)
    · exact absurd hmem (by simp)

theorem advanceBranch_unchanged_of_no_start (parse : ParseFn) (st : EngineState) (store : Store)
    (text : String) (h : ∀ s, SSEvent.sectionStart s ∉ (advanceBranch parse st store text).1) :
    (advanceBranch parse st store text).2.1 = st := by
  rcases advanceBranch_shape parse st store text with hb | ⟨m, p, hm, hcs, hsc, hor, hb⟩ |
    ⟨m, p, nm, hm, hcs, hlt, hnm, hb⟩ | ⟨m, p, nm, cs, hm, hcs, hlt, hnm, hb⟩
  · rw [hb]
  · refine absurd ?_ (h (fixBaseName (baseSectionName m)))
    rw [hb]
    simp
  · refine absurd ?_ (h nm)
    rw [hb]
    simp
  · refine absurd ?_ (h nm)
    rw [hb]
    simp

/-- C1 as the code actually behaves: every `content` event emitted by a
loop iteration is a cumulative replacement, not a delta — its payload is
the full trimmed content span of the then-open section in the current
snapshot (recorded as the engine's `last_sent_content`), it is nonempty,
and when the iteration opened no new section it differs from the
previously emitted payload for the open section. -/
theorem C1_content_events_cumulative :
    ∀ (parse : ParseFn) (st : EngineState) (store : Store) (text : String) (s c : String),
      SSEvent.content s c ∈ (advance parse st store text).1 →
      (advance parse st store text).2.1.currentSection = some s ∧
      sectionContentAt (advance parse st store text).2.1 text = some c ∧
      c ≠ "" ∧
      (advance parse st store text).2.1.lastSentContent = c ∧
      ((∀ s', SSEvent.sectionStart s' ∉ (advance parse st store text).1) →
        c ≠ st.lastSentContent) := by
  intro parse st store text s c hmem
  replace hmem : SSEvent.content s c ∈ (advanceBranch parse st store text).1 ++
      (contentStep (advanceBranch parse st store text).2.1 text).1 := hmem
  rcases List.mem_append.mp hmem with h | h
  · exact absurd h (advanceBranch_no_content parse st store text s c)
  · rcases contentStep_shape (advanceBranch parse st store text).2.1 text with hC |
      ⟨cs, c', hcur, hcat, hne, hnl, hC⟩
    · rw [hC] at h
      exact absurd h (by simp)
    · rw [hC] at h
      simp only [List.mem_singleton, SSEvent.content.injEq] at h
      obtain ⟨rfl, rfl⟩ := h
      have hst2 : (advance parse st store text).2.1 =
          { (advanceBranch parse st store text).2.1 with lastSentContent := c } := by
        show (contentStep (advanceBranch parse st store text).2.1 text).2 = _
        rw [hC]
      refine ⟨?_, ?_, hne, ?_, ?_⟩
      · rw [hst2]
        exact hcur
      · rw [hst2, sectionContentAt_lastSent]
        exact hcat
      · rw [hst2]
      · intro hnostart
        have hb : (advanceBranch parse st store text).2.1 = st := by
          refine advanceBranch_unchanged_of_no_start parse st store text fun s' hs' => ?_
          refine hnostart s' ?_
          show SSEvent.sectionStart s' ∈ (advanceBranch parse st store text).1 ++
            (contentStep (advanceBranch parse st store text).2.1 text).1
          exact List.mem_append.mpr (.inl hs')
        rw [hb] at hnl
        exact hnl

theorem C1_witness :
    SSEvent.content "think" "hi" ∈ (advance parseNone initState [] "[THINK]hi").1 ∧
    ((advance parseNone initState [] "[THINK]hi").2.1.currentSection = some "think" ∧
      sectionContentAt (advance parseNone initState [] "[THINK]hi").2.1 "[THINK]hi" =
        some "hi" ∧
      ("hi" : String) ≠ "" ∧
      (advance parseNone initState [] "[THINK]hi").2.1.lastSentContent = "hi" ∧
      ((∀ s', SSEvent.sectionStart s' ∉ (advance parseNone initState [] "[THINK]hi").1) →
        ("hi" : String) ≠ initState.lastSentContent)) :=
  ⟨by decide, C1_content_events_cumulative parseNone initState [] "[THINK]hi" "think" "hi"
    (by decide)⟩

/-- C1 counterexample: on the prefix-monotonic snapshots `"[THINK]a"`,
`"[THINK]ab"` the engine emits the cumulative contents `"a"` then
`"ab"` for section `think`, whose concatenation `"aab"` is not the
section's final trimmed content `"ab"` — the payloads are not deltas, so
concatenating them duplicates earlier content. -/
theorem C1_counterexample :
    contentsFor "think" (runGen parseNone ["[THINK]a", "[THINK]ab"]) = ["a", "ab"] ∧
    (contentsFor "think" (runGen parseNone ["[THINK]a", "[THINK]ab"])).foldl
      (fun a b => a ++ b) "" = "aab" ∧
    sectionContentAt (genLoop parseNone initState [] "" ["[THINK]a", "[THINK]ab"]).2.1
      "[THINK]ab" = some "ab" ∧
    ("aab" : String) ≠ "ab" := by
  decide

theorem mut_not_complete (e : SSEvent) (h : isMutation e = true) : isSectionCompleteEv e = false := by
  cases e <;> simp_all [isMutation, isSectionCompleteEv]

theorem filter_nil_of_none {α} (p : α → Bool) :
    ∀ l : List α, (∀ e ∈ l, p e = false) → l.filter p = [] := by
  intro l h
  induction l with
  | nil => rfl
  | cons a l ih =>
    rw [List.filter_cons, h a (List.mem_cons_self a l)]
    exact ih fun e he => h e (List.mem_cons_of_mem _ he)

theorem applyEvents_append (store : Store) (l1 l2 : List SSEvent) :
    applyEvents store (l1 ++ l2) = applyEvents (applyEvents store l1) l2 := by
  simp [applyEvents, List.foldl_append]

theorem applyEvents_no_mut {evs : List SSEvent} (store : Store)
    (h : ∀ e ∈ evs, isMutation e = false) : applyEvents store evs = store := by
  induction evs generalizing store with
  | nil => rfl
  | cons e evs ih =>
    have he := h e (List.mem_cons_self _ _)
    have hrest := fun e' he' => h e' (List.mem_cons_of_mem _ he')
    cases e <;> simp [isMutation] at he <;> exact ih store hrest

theorem extractTodoCmd_apply (parse : ParseFn) (store : Store) (sc : String) :
    (extractTodoCmd parse store sc).2 = applyEvents store (extractTodoCmd parse store sc).1 := by
  unfold extractTodoCmd
  split
  · cases parse sc with
    | none => rfl
    | some ts =>
      dsimp only
      split <;> rfl
  · rfl

theorem extractMountCmd_apply (store : Store) (sc : String) :
    applyEvents store (extractMountCmd sc) = store := by
  unfold extractMountCmd
  split <;> rfl

theorem closeExtraction_apply (parse : ParseFn) (store : Store) (cs sc : String) :
    (closeExtraction parse store cs sc).2 =
      applyEvents store (closeExtraction parse store cs sc).1 := by
  unfold closeExtraction
  split
  · dsimp only
    rw [applyEvents_append, ← extractTodoCmd_apply, extractMountCmd_apply]
  · rfl

theorem contentStep_no_mut (st : EngineState) (text : String) :
    ∀ e ∈ (contentStep st text).1, isMutation e = false ∧ isSectionCompleteEv e = false := by
  rcases contentStep_shape st text with hC | ⟨cs, c, _, _, _, _, hC⟩ <;> rw [hC] <;>
    simp [isMutation, isSectionCompleteEv]

/-- The ordering/effect discipline of one loop iteration: its events are
a block of store/registry mutations followed by a mutation-free tail; a
non-empty mutation block is immediately followed by the closing
section's `section_complete`; at most one `section_complete` is emitted;
and the store returned by the iteration is exactly the stored mutations
replayed in event order. -/
theorem advance_events_split (parse : ParseFn) (st : EngineState) (store : Store) (text : String) :
    ∃ pre post, (advance parse st store text).1 = pre ++ post ∧
      (∀ e ∈ pre, isMutation e = true) ∧
      (∀ e ∈ post, isMutation e = false) ∧
      (pre = [] ∨ ∃ cs rest, post = SSEvent.sectionComplete cs :: rest) ∧
      ((advance parse st store text).1.filter isSectionCompleteEv).length ≤ 1 ∧
      (advance parse st store text).2.2 = applyEvents store (advance parse st store text).1 := by
  have hadv1 : (advance parse st store text).1 = (advanceBranch parse st store text).1 ++
      (contentStep (advanceBranch parse st store text).2.1 text).1 := rfl
  have hadv2 : (advance parse st store text).2.2 = (advanceBranch parse st store text).2.2 := rfl
  have hcont := contentStep_no_mut (advanceBranch parse st store text).2.1 text
  rcases advanceBranch_shape parse st store text with hb | ⟨m, p, hm, hcs, hsc, hor, hb⟩ |
    ⟨m, p, nm, hm, hcs, hlt, hnm, hb⟩ | ⟨m, p, nm, cs, hm, hcs, hlt, hnm, hb⟩
  · rw [hb] at hadv1 hadv2 hcont
    simp only [List.nil_append] at hadv1
    refine ⟨[], (advance parse st store text).1, by simp, by simp, ?_, .inl rfl, ?_, ?_⟩
    · intro e he
      rw [hadv1] at he
      exact (hcont e he).1
    · rw [hadv1, filter_nil_of_none _ _ fun e he => (hcont e he).2]
      simp
    · rw [hadv2, hadv1, applyEvents_no_mut store fun e he => (hcont e he).1]
  · rw [hb] at hadv1 hadv2 hcont
    refine ⟨[], (advance parse st store text).1, by simp, by simp, ?_, .inl rfl, ?_, ?_⟩
    · intro e he
      rw [hadv1] at he
      rcases List.mem_append.mp he with h | h
      · simp only [List.mem_singleton] at h
        subst h
        rfl
      · exact (hcont e h).1
    · rw [hadv1]
      rw [List.filter_append, filter_nil_of_none _ _ fun e he => (hcont e he).2]
      simp [isSectionCompleteEv]
    · rw [hadv2, hadv1]
      refine (applyEvents_no_mut store fun e he => ?_).symm
      rcases List.mem_append.mp he with h | h
      · simp only [List.mem_singleton] at h
        subst h
        rfl
      · exact (hcont e h).1
  · rw [hb] at hadv1 hadv2 hcont
    refine ⟨[], (advance parse st store text).1, by simp, by simp, ?_, .inl rfl, ?_, ?_⟩
    · intro e he
      rw [hadv1] at he
      rcases List.mem_append.mp he with h | h
      · simp only [List.mem_singleton] at h
        subst h
        rfl
      · exact (hcont e h).1
    · rw [hadv1]
      rw [List.filter_append, filter_nil_of_none _ _ fun e he => (hcont e he).2]
      simp [isSectionCompleteEv]
    · rw [hadv2, hadv1]
      refine (applyEvents_no_mut store fun e he => ?_).symm
      rcases List.mem_append.mp he with h | h
      · simp only [List.mem_singleton] at h
        subst h
        rfl
      · exact (hcont e h).1
  · rw [hb] at hadv1 hadv2 hcont
    have hmut := closeExtraction_mut parse store cs
      (String.mk (pySlice text.data st.lastMarkerPos (p : Int)))
    refine ⟨(closeExtraction parse store cs
        (String.mk (pySlice text.data st.lastMarkerPos (p : Int)))).1,
      SSEvent.sectionComplete cs :: SSEvent.sectionStart nm ::
        (contentStep
          (⟨some nm, (p : Int), "",
            countersSet st.sectionCounters (fixBaseName (baseSectionName m))
              (countersGet st.sectionCounters (fixBaseName (baseSectionName m)) + 1)⟩ :
            EngineState) text).1, ?_, hmut, ?_, .inr ⟨cs, _, rfl⟩, ?_, ?_⟩
    · rw [hadv1]
      simp
    · intro e he
      simp only [List.mem_cons] at he
      rcases he with rfl | rfl | h
      · rfl
      · rfl
      · exact (hcont e h).1
    · rw [hadv1]
      rw [List.filter_append, List.filter_append, List.filter_append,
        filter_nil_of_none _ _ fun e he => mut_not_complete e (hmut e he),
        filter_nil_of_none _ _ fun e he => (hcont e he).2]
      simp [isSectionCompleteEv]
    · rw [hadv2, hadv1]
      rw [applyEvents_append, applyEvents_append, applyEvents_append,
        ← closeExtraction_apply]
      rw [show ∀ s : Store, applyEvents s [SSEvent.sectionComplete cs] = s from fun s => rfl,
        show ∀ s : Store, applyEvents s [SSEvent.sectionStart nm] = s from fun s => rfl,
        applyEvents_no_mut _ fun e he => (hcont e he).1]

/-- The same ordering/effect discipline for the code after the loop:
TodoWrite extraction (when the last section is a tool section) runs
before its `section_complete` and the terminal `complete`, and the
returned store replays exactly the recorded mutations. -/
theorem finalize_events_split (parse : ParseFn) (st : EngineState) (store : Store)
    (text : String) :
    ∃ pre post, (finalizeGen parse st store text).1 = pre ++ post ∧
      (∀ e ∈ pre, isMutation e = true) ∧
      (∀ e ∈ post, isMutation e = false) ∧
      (pre = [] ∨ ∃ cs rest, post = SSEvent.sectionComplete cs :: rest) ∧
      ((finalizeGen parse st store text).1.filter isSectionCompleteEv).length ≤ 1 ∧
      (finalizeGen parse st store text).2 =
        applyEvents store (finalizeGen parse st store text).1 := by
  have hf : finalizeGen parse st store text =
      match st.currentSection with
      | none => ([SSEvent.complete], store)
      | some cs =>
        let e :=
          if isToolSection cs then
            extractTodoCmd parse store
              (String.mk (pySlice text.data st.lastMarkerPos (text.data.length : Int)))
          else ([], store)
        (e.1 ++ [SSEvent.sectionComplete cs, SSEvent.complete], e.2) := rfl
  cases hcs : st.currentSection with
  | none =>
    rw [hcs] at hf
    rw [hf]
    exact ⟨[], [SSEvent.complete], rfl, by simp, by simp [isMutation], .inl rfl, by
      simp [isSectionCompleteEv], rfl⟩
  | some cs =>
    rw [hcs] at hf
    by_cases hts : isToolSection cs = true
    · simp only [hts, if_true] at hf
      rw [hf]
      have hmut := extractTodoCmd_mut parse store
        (String.mk (pySlice text.data st.lastMarkerPos (text.data.length : Int)))
      refine ⟨(extractTodoCmd parse store
          (String.mk (pySlice text.data st.lastMarkerPos (text.data.length : Int)))).1,
        [SSEvent.sectionComplete cs, SSEvent.complete], rfl, hmut, ?_, .inr ⟨cs, _, rfl⟩, ?_, ?_⟩
      · intro e he
        simp only [List.mem_cons] at he
        rcases he with rfl | rfl | h
        · rfl
        · rfl
        · exact absurd h (by simp)
      · rw [List.filter_append,
          filter_nil_of_none _ _ fun e he => mut_not_complete e (hmut e he)]
        simp [isSectionCompleteEv]
      · rw [applyEvents_append, ← extractTodoCmd_apply]
        rfl
    · simp only [Bool.not_eq_true] at hts
      simp only [hts, Bool.false_eq_true, if_false] at hf
      rw [hf]
      exact ⟨[], [SSEvent.sectionComplete cs, SSEvent.complete], rfl, by simp, by
        simp [isMutation], .inl rfl, by simp [isSectionCompleteEv], rfl⟩

/-- C2: within one loop iteration (and likewise in the finalization
code), command extraction runs at most once — only when a
`tool-calls`/`tool-responses` section closes — and synchronously: the
iteration's event list is a block of store/registry mutation records
immediately followed by that section's `section_complete` (then the
mutation-free remainder), at most one `section_complete` is emitted per
iteration, and the store state returned alongside the events already
reflects every recorded mutation, so a consumer observing
`section_complete` observes the mutation already applied. -/
theorem C2_command_extraction_ordering :
    ∀ (parse : ParseFn) (st : EngineState) (store : Store) (text : String),
      (∃ pre post, (advance parse st store text).1 = pre ++ post ∧
        (∀ e ∈ pre, isMutation e = true) ∧
        (∀ e ∈ post, isMutation e = false) ∧
        (pre = [] ∨ ∃ cs rest, post = SSEvent.sectionComplete cs :: rest) ∧
        ((advance parse st store text).1.filter isSectionCompleteEv).length ≤ 1 ∧
        (advance parse st store text).2.2 =
          applyEvents store (advance parse st store text).1) ∧
      (∃ pre post, (finalizeGen parse st store text).1 = pre ++ post ∧
        (∀ e ∈ pre, isMutation e = true) ∧
        (∀ e ∈ post, isMutation e = false) ∧
        (pre = [] ∨ ∃ cs rest, post = SSEvent.sectionComplete cs :: rest) ∧
        ((finalizeGen parse st store text).1.filter isSectionCompleteEv).length ≤ 1 ∧
        (finalizeGen parse st store text).2 =
          applyEvents store (finalizeGen parse st store text).1) :=
  fun parse st store text =>
    ⟨advance_events_split parse st store text, finalize_events_split parse st store text⟩

/-! ## Section numbering (C4) -/

theorem isPre_length : ∀ p l : List Char, isPre p l = true → p.length ≤ l.length := by
  intro p
  induction p with
  | nil => simp
  | cons a as ih =>
    intro l h
    cases l with
    | nil => exact absurd h (by simp [isPre])
    | cons b bs =>
      simp only [isPre, Bool.and_eq_true] at h
      simpa using ih bs h.2

theorem findFromGo_some {l sub : List Char} :
    ∀ (fuel i p : Nat), findFromGo l sub i fuel = some p →
      i ≤ p ∧ isPre sub (l.drop p) = true := by
  intro fuel
  induction fuel with
  | zero =>
    intro i p h
    exact absurd h (by simp [findFromGo])
  | succ fuel ih =>
    intro i p h
    unfold findFromGo at h
    split at h
    · simp only [Option.some.injEq] at h
      subst h
      exact ⟨le_refl i, by assumption⟩
    · have h2 := ih (i + 1) p h
      exact ⟨by omega, h2.2⟩

theorem pyFindFrom_some_lt {text m : String} {s : Int} {p : Nat} (hm : m.data ≠ [])
    (h : pyFindFrom text m s = some p) : p < text.data.length := by
  unfold pyFindFrom at h
  have h2 := (findFromGo_some _ _ p h).2
  by_contra hge
  push_neg at hge
  rw [List.drop_eq_nil_of_le hge] at h2
  obtain ⟨c, cs, hcons⟩ := List.exists_cons_of_ne_nil hm
  rw [hcons] at h2
  simp [isPre] at h2

theorem findNextMarker_someAcc (text : String) (s : Int) :
    ∀ (ms : List String) (m0 : String) (p0 : Nat),
      ∃ m' p', findNextMarker text s ms (some m0, p0) = (some m', p') := by
  intro ms
  induction ms with
  | nil => exact fun m0 p0 => ⟨m0, p0, rfl⟩
  | cons m ms ih =>
    intro m0 p0
    unfold findNextMarker
    cases pyFindFrom text m s with
    | none => exact ih m0 p0
    | some q =>
      dsimp only
      split
      · exact ih m q
      · exact ih m0 p0

theorem findNextMarker_none (text : String) (s : Int) :
    ∀ ms : List String, (∀ m ∈ ms, m.data ≠ []) →
      (findNextMarker text s ms (none, text.data.length)).1 = none →
      ∀ m ∈ ms, pyFindFrom text m s = none := by
  intro ms
  induction ms with
  | nil =>
    intro _ _ m hm
    exact absurd hm (by simp)
  | cons m0 ms ih =>
    intro hne h m hm
    unfold findNextMarker at h
    cases hf : pyFindFrom text m0 s with
    | some q =>
      exfalso
      have hlt : q < text.data.length :=
        pyFindFrom_some_lt (hne m0 (List.mem_cons_self _ _)) hf
      rw [hf] at h
      dsimp only at h
      rw [if_pos hlt] at h
      obtain ⟨m', p', heq⟩ := findNextMarker_someAcc text s ms m0 q
      rw [heq] at h
      exact absurd h (by simp)
    | none =>
      rw [hf] at h
      rcases List.mem_cons.mp hm with rfl | hm'
      · exact hf
      · exact ih (fun x hx => hne x (List.mem_cons_of_mem _ hx)) h m hm'

theorem scanFirstMarker_eq_none (text : String) :
    ∀ ms : List String, (∀ m ∈ ms, pyFindFrom text m 0 = none) →
      scanFirstMarker text ms = none := by
  intro ms
  induction ms with
  | nil => intro _; rfl
  | cons m0 ms ih =>
    intro h
    unfold scanFirstMarker
    rw [h m0 (List.mem_cons_self _ _)]
    exact ih fun x hx => h x (List.mem_cons_of_mem _ hx)

theorem markers_nonempty : ∀ m ∈ sectionMarkers, m.data ≠ [] := by decide

theorem marker_base_mem : ∀ m ∈ sectionMarkers,
    fixBaseName (baseSectionName m) ∈ sectionBases := by decide

theorem startNames_append (l1 l2 : List SSEvent) :
    startNames (l1 ++ l2) = startNames l1 ++ startNames l2 := by
  simp [startNames, List.filterMap_append]

theorem startNames_nil_of_mut {l : List SSEvent} (h : ∀ e ∈ l, isMutation e = true) :
    startNames l = [] := by
  induction l with
  | nil => rfl
  | cons e l ih =>
    have he := h e (List.mem_cons_self _ _)
    have ht := ih fun x hx => h x (List.mem_cons_of_mem _ hx)
    cases e <;> simp [isMutation] at he <;> simpa [startNames, List.filterMap_cons] using ht

theorem contentStep_no_start (st : EngineState) (text : String) :
    startNames (contentStep st text).1 = [] := by
  rcases contentStep_shape st text with hC | ⟨_, _, _, _, _, _, hC⟩ <;> rw [hC] <;> rfl

theorem contentStep_fields (st : EngineState) (text : String) :
    (contentStep st text).2.currentSection = st.currentSection ∧
    (contentStep st text).2.sectionCounters = st.sectionCounters ∧
    (contentStep st text).2.lastMarkerPos = st.lastMarkerPos := by
  rcases contentStep_shape st text with hC | ⟨_, _, _, _, _, _, hC⟩ <;> rw [hC] <;>
    exact ⟨rfl, rfl, rfl⟩

/-- One loop iteration, from any state `generate` can actually reach,
either opens no section (events carry no `section_start`, counters
untouched) or opens exactly one, whose display name is the per-kind
occurrence counter applied to one of the four base kinds. -/
theorem advance_start_spec (parse : ParseFn) (st : EngineState) (store : Store) (text : String)
    (hwf : WF st) :
    (startNames (advance parse st store text).1 = [] ∧
      (advance parse st store text).2.1.sectionCounters = st.sectionCounters ∧
      WF (advance parse st store text).2.1) ∨
    (∃ b, b ∈ sectionBases ∧
      startNames (advance parse st store text).1 =
        [displayNameOf b (countersGet st.sectionCounters b + 1)] ∧
      (advance parse st store text).2.1.sectionCounters =
        countersSet st.sectionCounters b (countersGet st.sectionCounters b + 1) ∧
      WF (advance parse st store text).2.1) := by
  have hadv1 : (advance parse st store text).1 = (advanceBranch parse st store text).1 ++
      (contentStep (advanceBranch parse st store text).2.1 text).1 := rfl
  have hadv2 : (advance parse st store text).2.1 =
      (contentStep (advanceBranch parse st store text).2.1 text).2 := rfl
  have hcf := contentStep_fields (advanceBranch parse st store text).2.1 text
  have hcn := contentStep_no_start (advanceBranch parse st store text).2.1 text
  rcases advanceBranch_shape parse st store text with hb | ⟨m, p, hm, hcs, hsc, hor, hb⟩ |
    ⟨m, p, nm, hm, hcs, hlt, hnm, hb⟩ | ⟨m, p, nm, cs, hm, hcs, hlt, hnm, hb⟩
  · left
    rw [hb] at hadv1 hadv2 hcf hcn
    simp only [List.nil_append] at hadv1
    refine ⟨by rw [hadv1, hcn], by rw [hadv2, hcf.2.1], ?_⟩
    intro hnone
    rw [hadv2] at hnone ⊢
    rw [hcf.1] at hnone
    obtain ⟨hc, hl⟩ := hwf hnone
    exact ⟨hcf.2.1.trans hc, hcf.2.2.trans hl⟩
  · exfalso
    obtain ⟨hctr, hlast⟩ := hwf hcs
    rcases hor with hor | ⟨m', p', heq, hlt⟩
    · rw [hlast] at hor
      norm_num at hor
      have hall := findNextMarker_none text 0 sectionMarkers markers_nonempty hor
      rw [scanFirstMarker_eq_none text sectionMarkers hall] at hsc
      exact absurd hsc (by simp)
    · rw [hlast] at hlt
      exact hlt (by omega)
  · right
    rw [hb] at hadv1 hadv2 hcf hcn
    refine ⟨fixBaseName (baseSectionName m), marker_base_mem m hm, ?_, ?_, ?_⟩
    · rw [hadv1, startNames_append, hcn, hnm]
      rfl
    · rw [hadv2, hcf.2.1]
    · intro hnone
      rw [hadv2, hcf.1] at hnone
      exact absurd hnone (by simp)
  · right
    rw [hb] at hadv1 hadv2 hcf hcn
    refine ⟨fixBaseName (baseSectionName m), marker_base_mem m hm, ?_, ?_, ?_⟩
    · rw [hadv1, startNames_append, hcn, startNames_append, startNames_append,
        startNames_nil_of_mut (closeExtraction_mut parse store cs
          (String.mk (pySlice text.data st.lastMarkerPos (p : Int)))), hnm]
      rfl
    · rw [hadv2, hcf.2.1]
    · intro hnone
      rw [hadv2, hcf.1] at hnone
      exact absurd hnone (by simp)

theorem finalize_no_start (parse : ParseFn) (st : EngineState) (store : Store) (text : String) :
    startNames (finalizeGen parse st store text).1 = [] := by
  have hf : finalizeGen parse st store text =
      match st.currentSection with
      | none => ([SSEvent.complete], store)
      | some cs =>
        let e :=
          if isToolSection cs then
            extractTodoCmd parse store
              (String.mk (pySlice text.data st.lastMarkerPos (text.data.length : Int)))
          else ([], store)
        (e.1 ++ [SSEvent.sectionComplete cs, SSEvent.complete], e.2) := rfl
  cases hcs : st.currentSection with
  | none =>
    rw [hcs] at hf
    rw [hf]
    rfl
  | some cs =>
    rw [hcs] at hf
    by_cases hts : isToolSection cs = true
    · simp only [hts, if_true] at hf
      rw [hf]
      show startNames ((extractTodoCmd parse store _).1 ++ _) = []
      rw [startNames_append, startNames_nil_of_mut (extractTodoCmd_mut parse store _)]
      rfl
    · simp only [Bool.not_eq_true] at hts
      simp only [hts, Bool.false_eq_true, if_false] at hf
      rw [hf]
      rfl

theorem genLoop_numbering (parse : ParseFn) :
    ∀ (snaps : List String) (st : EngineState) (store : Store) (lt : String), WF st →
      ∃ bs, (∀ b ∈ bs, b ∈ sectionBases) ∧
        startNames (genLoop parse st store lt snaps).1 =
          specNumbering st.sectionCounters bs := by
  intro snaps
  induction snaps with
  | nil =>
    intro st store lt _
    exact ⟨[], by simp, by
      show startNames (finalizeGen parse st store lt).1 = _
      rw [finalize_no_start]
      rfl⟩
  | cons t ts ih =>
    intro st store lt hwf
    have hloop : (genLoop parse st store lt (t :: ts)).1 = (advance parse st store t).1 ++
        (genLoop parse (advance parse st store t).2.1 (advance parse st store t).2.2 t ts).1 :=
      rfl
    rcases advance_start_spec parse st store t hwf with ⟨h0, hctr, hwf'⟩ | ⟨b, hb, h1, hctr, hwf'⟩
    · obtain ⟨bs, hbs, hrest⟩ := ih (advance parse st store t).2.1 (advance parse st store t).2.2
        t hwf'
      refine ⟨bs, hbs, ?_⟩
      rw [hloop, startNames_append, h0, List.nil_append, hrest, hctr]
    · obtain ⟨bs, hbs, hrest⟩ := ih (advance parse st store t).2.1 (advance parse st store t).2.2
        t hwf'
      refine ⟨b :: bs, ?_, ?_⟩
      · intro x hx
        rcases List.mem_cons.mp hx with rfl | hx'
        · exact hb
        · exact hbs x hx'
      · rw [hloop, startNames_append, h1, hrest, hctr]
        rfl

/-- C4: in any full run of the engine, the emitted `section_start`
display names are exactly the stream-order sequence of base kinds
numbered consecutively per kind — the first occurrence of a kind bare,
the i-th as `kind-i` — and a back-to-back repeat of the same marker
kind (here three consecutive `[THINK]` markers) opens a new, separately
numbered section each time. -/
theorem C4_section_numbering :
    (∀ (parse : ParseFn) (snaps : List String),
      ∃ bs, (∀ b ∈ bs, b ∈ sectionBases) ∧
        startNames (runGen parse snaps) = specNumbering [] bs) ∧
    startNames (runGen parseNone ["[THINK]", "[THINK][THINK]", "[THINK][THINK][THINK]"]) =
      ["think", "think-2", "think-3"] := by
  constructor
  · intro parse snaps
    exact genLoop_numbering parse snaps initState [] "" fun _ => ⟨rfl, rfl⟩
  · decide

end SumoMCP
